import Mathlib

/-!
Verification of the file-backup client in `src/client_side.py`.

The client speaks a fixed-header little-endian binary protocol over a TCP
socket.  The embedding below translates the protocol layer of the source:

* Bytes are `Nat`s in `[0, 256)`; byte strings are `List Nat`; Python `str`
  values are `List Char`.
* The incoming side of a socket is modelled as a `List (List Nat)`: the
  successive bursts of bytes that become available to `recv`.  `recv n`
  returns up to `n` bytes from the front burst and leaves any remainder
  buffered at the front of the stream, exactly as a TCP `recv` leaves
  unread bytes in the kernel buffer.  An exhausted stream makes `recv`
  return the empty byte string, which is Python's end-of-stream signal.
* Fallible operations (`struct.pack`/`struct.unpack` range and size errors,
  `open` on a missing file, `bytes.decode` on invalid UTF-8) return
  `Except PyError`.
* The filesystem collaborator is a function `List Char → Option (List Nat)`
  from filenames to file contents (`none` models `FileNotFoundError`).
* `send_request` returns the byte string handed to the unique
  `client_socket.send` call; an `Except.error` result means the function
  raised before reaching that call, so nothing was transmitted.
-/

/-- Exceptions the client code can raise. -/
inductive PyError
  | fileNotFound
  | structError
  | unicodeDecodeError
  deriving DecidableEq, Repr

/-- Request opcodes (`class OpCode(Enum)` in the source). -/
inductive OpCode
  | SAVE_FILE
  | RETRIEVE_FILE
  | DELETE_FILE
  | LIST_FILES
  deriving DecidableEq, Repr

/-- Numeric value of each opcode as declared in the source enum. -/
def OpCode.value : OpCode → Nat
  | .SAVE_FILE => 100
  | .RETRIEVE_FILE => 200
  | .DELETE_FILE => 201
  | .LIST_FILES => 202

/-- Response statuses (`class ResponseStatus(Enum)` in the source). -/
inductive ResponseStatus
  | FILE_RETRIEVED
  | FILE_LIST_RETRIEVED
  | SUCCESS
  | NO_FILE
  | NO_USER_FILES
  | SERVER_ERROR
  deriving DecidableEq, Repr

/-- Numeric value of each response status as declared in the source enum. -/
def ResponseStatus.value : ResponseStatus → Nat
  | .FILE_RETRIEVED => 210
  | .FILE_LIST_RETRIEVED => 211
  | .SUCCESS => 212
  | .NO_FILE => 1001
  | .NO_USER_FILES => 1002
  | .SERVER_ERROR => 1003

/-- Little-endian byte sequence of a value at a fixed width, the byte layout
produced by `struct.pack` with the `<` format for an in-range value. -/
def toBytesLE (width value : Nat) : List Nat :=
  (List.range width).map fun i => value / 256 ^ i % 256

/-- Python `int.from_bytes(bs, byteorder='big')`. -/
def int_from_bytes_big (bs : List Nat) : Nat :=
  bs.foldl (fun acc b => acc * 256 + b) 0

/-- Python `struct.pack("<IBB", uid_int, version, op)` (line 69): errors when
any field is out of range for its width, otherwise concatenates the
little-endian fields with no padding. -/
def pack_IBB (uid_int version op : Nat) : Except PyError (List Nat) :=
  if uid_int < 4294967296 ∧ version < 256 ∧ op < 256 then
    .ok (toBytesLE 4 uid_int ++ toBytesLE 1 version ++ toBytesLE 1 op)
  else .error .structError

/-- Python `struct.pack("<IBBH", uid_int, version, op, name_len)` (line 73). -/
def pack_IBBH (uid_int version op name_len : Nat) : Except PyError (List Nat) :=
  if uid_int < 4294967296 ∧ version < 256 ∧ op < 256 ∧ name_len < 65536 then
    .ok (toBytesLE 4 uid_int ++ toBytesLE 1 version ++ toBytesLE 1 op ++
      toBytesLE 2 name_len)
  else .error .structError

/-- Python `struct.pack("<I", n)` (line 78). -/
def pack_I (n : Nat) : Except PyError (List Nat) :=
  if n < 4294967296 then .ok (toBytesLE 4 n) else .error .structError

/-- UTF-8 encoding of one character, as produced by Python `str.encode()`.
Lean's `Char` carries only valid scalar values, so encoding never fails. -/
def utf8EncodeChar (c : Char) : List Nat :=
  let n := c.toNat
  if n < 128 then [n]
  else if n < 2048 then [192 + n / 64, 128 + n % 64]
  else if n < 65536 then [224 + n / 4096, 128 + n / 64 % 64, 128 + n % 64]
  else [240 + n / 262144, 128 + n / 4096 % 64, 128 + n / 64 % 64, 128 + n % 64]

/-- Python `str.encode()`: UTF-8 bytes of a string. -/
def utf8Encode (s : List Char) : List Nat :=
  s.flatMap utf8EncodeChar

/-- Strict UTF-8 decoding, as performed by Python `bytes.decode()`: rejects
stray or missing continuation bytes, overlong forms, surrogates and code
points above U+10FFFF with a `UnicodeDecodeError`. -/
def utf8Decode : List Nat → Except PyError (List Char)
  | [] => .ok []
  | b :: rest =>
    if b < 128 then
      match utf8Decode rest with
      | .ok cs => .ok (Char.ofNat b :: cs)
      | .error e => .error e
    else if b < 194 then .error .unicodeDecodeError
    else if b < 224 then
      match rest with
      | c1 :: rest1 =>
        if 128 ≤ c1 ∧ c1 < 192 then
          match utf8Decode rest1 with
          | .ok cs => .ok (Char.ofNat ((b - 192) * 64 + (c1 - 128)) :: cs)
          | .error e => .error e
        else .error .unicodeDecodeError
      | [] => .error .unicodeDecodeError
    else if b < 240 then
      match rest with
      | c1 :: c2 :: rest2 =>
        if (128 ≤ c1 ∧ c1 < 192 ∧ 128 ≤ c2 ∧ c2 < 192) ∧
            ¬(b = 224 ∧ c1 < 160) ∧ ¬(b = 237 ∧ 160 ≤ c1) then
          match utf8Decode rest2 with
          | .ok cs =>
            .ok (Char.ofNat ((b - 224) * 4096 + (c1 - 128) * 64 + (c2 - 128)) :: cs)
          | .error e => .error e
        else .error .unicodeDecodeError
      | _ => .error .unicodeDecodeError
    else if b < 245 then
      match rest with
      | c1 :: c2 :: c3 :: rest3 =>
        if (128 ≤ c1 ∧ c1 < 192 ∧ 128 ≤ c2 ∧ c2 < 192 ∧ 128 ≤ c3 ∧ c3 < 192) ∧
            ¬(b = 240 ∧ c1 < 144) ∧ ¬(b = 244 ∧ 144 ≤ c1) then
          match utf8Decode rest3 with
          | .ok cs =>
            .ok (Char.ofNat ((b - 240) * 262144 + (c1 - 128) * 4096 +
              (c2 - 128) * 64 + (c3 - 128)) :: cs)
          | .error e => .error e
        else .error .unicodeDecodeError
      | _ => .error .unicodeDecodeError
    else .error .unicodeDecodeError

/-- `send_request` (lines 64–80).  Inputs: the filesystem collaborator `fs`
standing for `get_file_bytes`/`open`, the user-id bytes, the version, the
opcode, and the filename (Python default `""` becomes `[]`).  The result is
the exact byte string passed to the single `client_socket.send(package)`
call on line 80; an error result means the function raised before that call
and transmitted nothing.  Note the source packs
`int.from_bytes(user_id, byteorder='big')` into a `<` (little-endian)
format, and uses `len(filename)` (character count) as the name length while
emitting `filename.encode()` (UTF-8 bytes). -/
def send_request (fs : List Char → Option (List Nat)) (user_id : List Nat)
    (version : Nat) (op_code : OpCode) (filename : List Char := []) :
    Except PyError (List Nat) :=
  let packed : Except PyError (List Nat) :=
    if filename.isEmpty then
      pack_IBB (int_from_bytes_big user_id) version op_code.value
    else
      match pack_IBBH (int_from_bytes_big user_id) version op_code.value
          filename.length with
      | .ok p => .ok (p ++ utf8Encode filename)
      | .error e => .error e
  match packed with
  | .error e => .error e
  | .ok package =>
    if op_code = OpCode.SAVE_FILE then
      match fs filename with
      | none => .error .fileNotFound
      | some file_content =>
        match pack_I file_content.length with
        | .ok size_bytes => .ok (package ++ size_bytes ++ file_content)
        | .error e => .error e
    else .ok package

/-- `client_socket.recv n` over the burst-stream model: returns up to `n`
bytes from the front burst; a remainder stays buffered at the front.  On an
exhausted stream it returns the empty byte string (peer closed). -/
def recv (n : Nat) (segs : List (List Nat)) : List Nat × List (List Nat) :=
  match segs with
  | [] => ([], [])
  | s :: rest =>
    (s.take n, if s.drop n = [] then rest else s.drop n :: rest)

/-- `receive_status` (lines 83–87): one `recv(3)` then
`struct.unpack("<BH", header)`, which demands exactly 3 bytes; the version
byte is consumed and discarded, the status is returned. -/
def receive_status (segs : List (List Nat)) :
    Except PyError (Nat × List (List Nat)) :=
  match recv 3 segs with
  | ([_version, s0, s1], rest) => .ok (s0 + 256 * s1, rest)
  | _ => .error .structError

/-- `receive_filename` (lines 90–94): one `recv(2)` then
`struct.unpack("<H", ·)` (demands exactly 2 bytes), then a single
`recv(name_len)` — no loop — and `bytes.decode()` of whatever that one read
returned. -/
def receive_filename (segs : List (List Nat)) :
    Except PyError (List Char × List (List Nat)) :=
  match recv 2 segs with
  | ([b0, b1], rest) =>
    let name_len := b0 + 256 * b1
    match recv name_len rest with
    | (name_bytes, rest2) =>
      match utf8Decode name_bytes with
      | .ok name => .ok (name, rest2)
      | .error e => .error e
  | _ => .error .structError

/-- Total number of bytes still in the stream. -/
def sumLen (segs : List (List Nat)) : Nat :=
  (segs.map List.length).sum

theorem recv_sumLen_lt (n : Nat) (hn : 0 < n) (segs : List (List Nat))
    (b : Nat) (bs : List Nat) (rest : List (List Nat))
    (h : recv n segs = (b :: bs, rest)) : sumLen rest < sumLen segs := by
  match segs with
  | [] => simp [recv] at h
  | s :: tail =>
    simp only [recv] at h
    obtain ⟨htake, hrest⟩ := Prod.mk.injEq .. ▸ h
    have hs : s ≠ [] := by
      intro hnil
      rw [hnil] at htake
      simp at htake
    by_cases hd : s.drop n = []
    · rw [if_pos hd] at hrest
      subst hrest
      have : 0 < s.length := List.length_pos.mpr hs
      simp [sumLen]
      omega
    · rw [if_neg hd] at hrest
      subst hrest
      have hlen : (s.drop n).length = s.length - n := List.length_drop n s
      have : 0 < s.length := List.length_pos.mpr hs
      have hgt : n < s.length := by
        by_contra hle
        exact hd (List.drop_eq_nil_of_le (by omega))
      simp [sumLen, hlen]
      omega

/-- The `while file_size > 0` loop of `receive_file` (lines 103–108):
`recv(4096)` until the remaining counter is exhausted or a read returns no
bytes; each chunk is written to the sink and its length subtracted from the
counter (which can go negative, hence `Int`).  Returns the bytes written. -/
def receive_file_loop (file_size : Int) (segs : List (List Nat)) : List Nat :=
  if file_size ≤ 0 then []
  else
    match hrc : recv 4096 segs with
    | ([], _) => []
    | (b :: bs, rest) =>
      (b :: bs) ++ receive_file_loop (file_size - (b :: bs).length) rest
termination_by sumLen segs
decreasing_by
  exact recv_sumLen_lt 4096 (by omega) segs b bs rest hrc

/-- `receive_file` (lines 97–108): one `recv(4)` then
`struct.unpack("<I", ·)` (demands exactly 4 bytes) for the declared size,
then the chunked receive loop writing to `open(filename, "wb")`.  Returns
the written file as (its local name, its bytes). -/
def receive_file (segs : List (List Nat)) (filename : List Char) :
    Except PyError (List Char × List Nat) :=
  match recv 4 segs with
  | ([b0, b1, b2, b3], rest) =>
    .ok (filename,
      receive_file_loop ((b0 + 256 * (b1 + 256 * (b2 + 256 * b3)) : Nat) : Int)
        rest)
  | _ => .error .structError

/-- Outcome printed by `request_file_save` (lines 132–138). -/
inductive SaveOutcome
  | saved (server_name : List Char)
  | no_such_file
  | wrong_status
  deriving DecidableEq, Repr

/-- Response half of `request_file_save` (lines 131–138), entered once
`send_request` has returned: read the status; on `SUCCESS` read a filename
and report it, on `NO_FILE` report the miss, otherwise report a wrong
status code. -/
def request_file_save_response (segs : List (List Nat)) :
    Except PyError SaveOutcome :=
  match receive_status segs with
  | .error e => .error e
  | .ok (status, segs1) =>
    if status = ResponseStatus.SUCCESS.value then
      match receive_filename segs1 with
      | .error e => .error e
      | .ok (server_name, _segs2) => .ok (SaveOutcome.saved server_name)
    else if status = ResponseStatus.NO_FILE.value then
      .ok SaveOutcome.no_such_file
    else .ok SaveOutcome.wrong_status

/-- Outcome of `request_file_retrieve` (lines 144–152); `retrieved` carries
the remote filename that was announced and the locally written file as
(local name, bytes). -/
inductive RetrieveOutcome
  | retrieved (server_name : List Char) (saved_file : List Char × List Nat)
  | no_such_file
  | wrong_status
  deriving DecidableEq, Repr

/-- Response half of `request_file_retrieve` (lines 144–152), entered once
`send_request` has returned: read the status; on `FILE_RETRIEVED` read the
remote filename, then `receive_file(client_socket, "tmp")` — the payload is
always written to the literal local name `"tmp"` (line 147). -/
def request_file_retrieve_response (segs : List (List Nat)) :
    Except PyError RetrieveOutcome :=
  match receive_status segs with
  | .error e => .error e
  | .ok (status, segs1) =>
    if status = ResponseStatus.FILE_RETRIEVED.value then
      match receive_filename segs1 with
      | .error e => .error e
      | .ok (server_name, segs2) =>
        match receive_file segs2 ['t', 'm', 'p'] with
        | .error e => .error e
        | .ok saved_file => .ok (RetrieveOutcome.retrieved server_name saved_file)
    else if status = ResponseStatus.NO_FILE.value then
      .ok RetrieveOutcome.no_such_file
    else .ok RetrieveOutcome.wrong_status

/-- Observable result of one run of the orchestrator `request`. -/
structure RequestRun where
  socket_closed : Bool
  propagated : Option PyError
  logged : Option PyError
  deriving DecidableEq, Repr

/-- `request` (lines 168–176): `with socket(...)` closes the socket on every
way out of the block, whether the body returned or raised; inside it,
`try ... except Exception` runs the connect and then the operation body, and
turns any raised exception into a printed traceback instead of re-raising.
The two arguments are the outcomes of `client_socket.connect(...)` and of
`request_function(client_socket, user_id, *args)`. -/
def request (connect_result : Except PyError Unit)
    (op_result : Except PyError Unit) : RequestRun :=
  match connect_result.bind fun _ => op_result with
  | .ok _ => { socket_closed := true, propagated := none, logged := none }
  | .error e => { socket_closed := true, propagated := none, logged := some e }

theorem toBytesLE_one (v : Nat) (hv : v < 256) : toBytesLE 1 v = [v] := by
  simp [toBytesLE, List.range_succ, Nat.mod_eq_of_lt hv]

theorem toBytesLE_two (v : Nat) : toBytesLE 2 v = [v % 256, v / 256 % 256] := by
  simp [toBytesLE, List.range_succ]

theorem toBytesLE_four (v : Nat) :
    toBytesLE 4 v = [v % 256, v / 256 % 256, v / 65536 % 256, v / 16777216 % 256] := by
  simp [toBytesLE, List.range_succ]

set_option maxRecDepth 4000 in
theorem toBytesLE_reverse4 (a b c d : Nat) (ha : a < 256) (hb : b < 256)
    (hc : c < 256) (hd : d < 256) :
    toBytesLE 4 (((a * 256 + b) * 256 + c) * 256 + d) = [d, c, b, a] := by
  rw [toBytesLE_four]
  simp only [List.cons.injEq, and_true]
  refine ⟨?_, ?_, ?_, ?_⟩ <;> omega

theorem int_from_bytes_big_four (a b c d : Nat) :
    int_from_bytes_big [a, b, c, d] = ((a * 256 + b) * 256 + c) * 256 + d := by
  simp [int_from_bytes_big]

theorem OpCode.value_lt (op : OpCode) : op.value < 256 := by
  cases op <;> simp [OpCode.value]

theorem send_request_spec_nosave (fs : List Char → Option (List Nat)) (a b c d v : Nat)
    (op : OpCode) (name : List Char)
    (ha : a < 256) (hb : b < 256) (hc : c < 256) (hd : d < 256) (hv : v < 256)
    (hn : name.length < 65536) (hop : op ≠ OpCode.SAVE_FILE) :
    send_request fs [a, b, c, d] v op name =
      .ok ([d, c, b, a] ++ [v] ++ [op.value] ++
        (if name.isEmpty then [] else toBytesLE 2 name.length ++ utf8Encode name)) := by
  have hbound : int_from_bytes_big [a, b, c, d] < 4294967296 := by
    rw [int_from_bytes_big_four a b c d]; omega
  have hrev : toBytesLE 4 (int_from_bytes_big [a, b, c, d]) = [d, c, b, a] := by
    rw [int_from_bytes_big_four a b c d]; exact toBytesLE_reverse4 a b c d ha hb hc hd
  by_cases hne : name.isEmpty
  · simp only [send_request, hne, if_true, pack_IBB,
      if_pos (And.intro hbound (And.intro hv (OpCode.value_lt op)))]
    simp [hop, hrev, toBytesLE_one v hv, toBytesLE_one _ (OpCode.value_lt op)]
  · simp only [send_request, hne, if_false, Bool.false_eq_true, pack_IBBH,
      if_pos (And.intro hbound (And.intro hv (And.intro (OpCode.value_lt op) hn)))]
    simp [hop, hrev, toBytesLE_one v hv, toBytesLE_one _ (OpCode.value_lt op)]

theorem send_request_spec_save (fs : List Char → Option (List Nat)) (a b c d v : Nat)
    (name : List Char) (content : List Nat)
    (ha : a < 256) (hb : b < 256) (hc : c < 256) (hd : d < 256) (hv : v < 256)
    (hn : name.length < 65536) (hfs : fs name = some content)
    (hcl : content.length < 4294967296) :
    send_request fs [a, b, c, d] v OpCode.SAVE_FILE name =
      .ok ([d, c, b, a] ++ [v] ++ [OpCode.value OpCode.SAVE_FILE] ++
        (if name.isEmpty then [] else toBytesLE 2 name.length ++ utf8Encode name) ++
        toBytesLE 4 content.length ++ content) := by
  have hbound : int_from_bytes_big [a, b, c, d] < 4294967296 := by
    rw [int_from_bytes_big_four a b c d]; omega
  have hrev : toBytesLE 4 (int_from_bytes_big [a, b, c, d]) = [d, c, b, a] := by
    rw [int_from_bytes_big_four a b c d]; exact toBytesLE_reverse4 a b c d ha hb hc hd
  have hv256 : (100 : Nat) < 256 := by omega
  by_cases hne : name.isEmpty
  · simp only [send_request, hne, if_true, pack_IBB,
      if_pos (And.intro hbound (And.intro hv hv256))]
    simp [hfs, pack_I, hcl, hrev, toBytesLE_one v hv, OpCode.value, hbound, hv, hn,
      show toBytesLE 1 100 = [100] from rfl]
  · simp only [send_request, hne, if_false, Bool.false_eq_true, pack_IBBH,
      if_pos (And.intro hbound (And.intro hv (And.intro hv256 hn)))]
    simp [hfs, pack_I, hcl, hrev, toBytesLE_one v hv, OpCode.value, hbound, hv, hn,
      show toBytesLE 1 100 = [100] from rfl]

theorem recv_fst_length_le (n : Nat) (segs : List (List Nat)) :
    (recv n segs).1.length ≤ n := by
  match segs with
  | [] => simp [recv]
  | s :: rest => simp [recv]

theorem receive_file_loop_length_le (n : Nat) :
    ∀ (segs : List (List Nat)), sumLen segs = n → ∀ (fsz : Int),
      ((receive_file_loop fsz segs).length : Int) ≤
        if fsz ≤ 0 then 0 else fsz + 4095 := by
  induction n using Nat.strong_induction_on with
  | _ n ih =>
    intro segs hn fsz
    rw [receive_file_loop]
    by_cases hfz : fsz ≤ 0
    · simp [hfz]
    · rw [if_neg hfz, if_neg hfz]
      split
    
      · simp
        omega
      · next b bs rest heq =>
        have hlt : sumLen rest < sumLen segs :=
          recv_sumLen_lt 4096 (by omega) segs b bs rest heq
        have hle : (b :: bs).length ≤ 4096 := by
          have h2 := recv_fst_length_le 4096 segs
          rw [heq] at h2
          simpa using h2
        have ihh := ih (sumLen rest) (by omega) rest rfl (fsz - (b :: bs).length)
        simp only [List.length_append]
        by_cases h2 : fsz - ((b :: bs).length : Int) ≤ 0
        · rw [if_pos h2] at ihh
          have : (receive_file_loop (fsz - ((b :: bs).length : Int)) rest).length = 0 := by
            omega
          push_cast
          omega
        · rw [if_neg h2] at ihh
          push_cast at ihh ⊢
          omega

theorem receive_file_loop_flatten (n : Nat) :
    ∀ (segs : List (List Nat)), sumLen segs = n →
      (∀ s ∈ segs, s ≠ []) → ∀ (fsz : Int), (sumLen segs : Int) < fsz →
        receive_file_loop fsz segs = segs.flatten := by
  induction n using Nat.strong_induction_on with
  | _ n ih =>
    intro segs hn hne fsz hlen
    have hfz : ¬ fsz ≤ 0 := by
      have h0 : (0 : Int) ≤ (sumLen segs : Int) := Int.natCast_nonneg _
      omega
    rw [receive_file_loop, if_neg hfz]
    split
    · next x heq =>
      cases segs with
      | nil => simp
      | cons s tail =>
        exfalso
        have hs : s ≠ [] := hne s (by simp)
        simp only [recv] at heq
        have htake : s.take 4096 = [] := (Prod.mk.injEq .. ▸ heq).1
        cases s with
        | nil => exact hs rfl
        | cons a as => simp at htake
    · next b bs rest heq =>
      cases segs with
      | nil => simp [recv] at heq
      | cons s tail =>
        have hs : s ≠ [] := hne s (by simp)
        simp only [recv] at heq
        obtain ⟨htake, hrest⟩ := Prod.mk.injEq .. ▸ heq
        have hsum : sumLen (s :: tail) = s.length + sumLen tail := by
          simp [sumLen]
        have hs1 : 0 < s.length := List.length_pos.mpr hs
        by_cases hdrop : s.drop 4096 = []
        · rw [if_pos hdrop] at hrest
          have hsl : s.length ≤ 4096 := List.drop_eq_nil_iff.mp hdrop
          have hbs : s = b :: bs := by rw [← htake, List.take_of_length_le hsl]
          subst hrest
          have hblen1 : (b :: bs).length = s.length := by rw [hbs]
          have ihh := ih (sumLen tail) (by omega) tail rfl
            (fun t ht => hne t (by simp [ht]))
            (fsz - ((b :: bs).length : Int))
            (by omega)
          rw [ihh, ← hbs]
          simp
        · rw [if_neg hdrop] at hrest
          have hsl : 4096 < s.length := by
            by_contra h
            exact hdrop (List.drop_eq_nil_iff.mpr (by omega))
          have hblen : (b :: bs).length = 4096 := by
            rw [← htake]
            simp
            omega
          have hsumrest : sumLen rest = s.length - 4096 + sumLen tail := by
            rw [← hrest]
            simp [sumLen]
          have ihh := ih (sumLen rest) (by omega) rest rfl
            (by
              intro t ht
              rw [← hrest] at ht
              rcases List.mem_cons.mp ht with h1 | h2
              · rw [h1]; exact hdrop
              · exact hne t (by simp [h2]))
            (fsz - ((b :: bs).length : Int))
            (by omega)
          rw [ihh, ← hrest]
          simp only [List.flatten_cons, ← List.append_assoc]
          rw [← htake]
          simp [List.take_append_drop]

/-- C1 (amended): for every user id, version, opcode and filename, provided a
filename is supplied (nonempty) exactly when the opcode is ListFiles is
false, the frame built by `send_request` has the per-opcode layout: List is
the 6-byte header, Retrieve/Delete append NameLen (2 bytes little-endian)
and the filename's UTF-8 bytes, Save further appends FileSize (4 bytes
little-endian) and the raw file bytes.  Amendments forced by the code:
NameLen is the filename's character count `len(filename)`, not its UTF-8
byte length (the two agree exactly for ASCII names), and the UserID field
holds the id bytes in reversed order. -/
theorem send_request_layout (fs : List Char → Option (List Nat))
    (a b c d v : Nat) (op : OpCode) (name : List Char) (content : List Nat)
    (ha : a < 256) (hb : b < 256) (hc : c < 256) (hd : d < 256) (hv : v < 256)
    (hn : name.length < 65536)
    (hdisc : op = OpCode.LIST_FILES ↔ name = [])
    (hsave : op = OpCode.SAVE_FILE →
      fs name = some content ∧ content.length < 4294967296) :
    send_request fs [a, b, c, d] v op name =
      .ok ([d, c, b, a, v, op.value] ++
        (if op = OpCode.LIST_FILES then []
         else toBytesLE 2 name.length ++ utf8Encode name) ++
        (if op = OpCode.SAVE_FILE then toBytesLE 4 content.length ++ content
         else [])) := by
  by_cases hopS : op = OpCode.SAVE_FILE
  · subst hopS
    obtain ⟨hfs, hcl⟩ := hsave rfl
    have hne : name ≠ [] := by
      intro h
      exact absurd (hdisc.mpr h) (by decide)
    have hne2 : name.isEmpty = false := by
      cases name with
      | nil => exact absurd rfl hne
      | cons x xs => rfl
    rw [send_request_spec_save fs a b c d v name content ha hb hc hd hv hn hfs hcl]
    simp [hne2]
  · rw [send_request_spec_nosave fs a b c d v op name ha hb hc hd hv hn hopS]
    by_cases hopL : op = OpCode.LIST_FILES
    · have hnm : name = [] := hdisc.mp hopL
      subst hnm
      simp [hopL, hopS]
    · have hne : name ≠ [] := fun h => hopL (hdisc.mpr h)
      have hne2 : name.isEmpty = false := by
        cases name with
        | nil => exact absurd rfl hne
        | cons x xs => rfl
      simp [hne2, hopL, hopS]

/-- C1 counterexample: for the 1-character non-ASCII filename U+00E9 ("é"),
`send_request` emits NameLen = 1 (the character count) followed by 2 UTF-8
name bytes, so the frame differs from the claimed layout in which NameLen
equals the filename's byte length 2. -/
theorem send_request_layout_cex :
    send_request (fun _ => none) [0, 0, 0, 0] 1 OpCode.RETRIEVE_FILE
        [Char.ofNat 233] =
      .ok [0, 0, 0, 0, 1, 200, 1, 0, 195, 169] ∧
    [0, 0, 0, 0, 1, 200, 1, 0, 195, 169] ≠
      [0, 0, 0, 0, 1, 200, 2, 0, 195, 169] :=
  ⟨rfl, by decide⟩

/-- C1 witness: the amended layout theorem applied to a concrete Retrieve
request with the ASCII filename "x". -/
theorem send_request_layout_witness :
    send_request (fun _ => none) [1, 2, 3, 4] 1 OpCode.RETRIEVE_FILE ['x'] =
      .ok [4, 3, 2, 1, 1, 200, 1, 0, 120] := by
  have h := send_request_layout (fun _ => none) 1 2 3 4 1 OpCode.RETRIEVE_FILE
    ['x'] [] (by omega) (by omega) (by omega) (by omega) (by omega)
    (by simp) (by decide) (fun h => absurd h (by decide))
  simpa [toBytesLE_two, utf8Encode, utf8EncodeChar, OpCode.value] using h

/-- C2 (amended): for every 4-byte user id, the first 4 bytes of every frame
built by `send_request` are the user-id bytes in reversed order: the id is
reinterpreted as a big-endian unsigned integer
(`int.from_bytes(user_id, byteorder='big')`) and then emitted little-endian
(`struct.pack("<I", ...)`), so the raw bytes do not appear unchanged unless
they form a palindrome. -/
theorem send_request_userid (fs : List Char → Option (List Nat))
    (a b c d v : Nat) (op : OpCode) (name : List Char) (content : List Nat)
    (ha : a < 256) (hb : b < 256) (hc : c < 256) (hd : d < 256) (hv : v < 256)
    (hn : name.length < 65536)
    (hsave : op = OpCode.SAVE_FILE →
      fs name = some content ∧ content.length < 4294967296) :
    ∃ frame, send_request fs [a, b, c, d] v op name = .ok frame ∧
      frame.take 4 = [d, c, b, a] := by
  by_cases hopS : op = OpCode.SAVE_FILE
  · subst hopS
    obtain ⟨hfs, hcl⟩ := hsave rfl
    exact ⟨_, send_request_spec_save fs a b c d v name content
      ha hb hc hd hv hn hfs hcl, by simp⟩
  · exact ⟨_, send_request_spec_nosave fs a b c d v op name
      ha hb hc hd hv hn hopS, by simp⟩

/-- C2 counterexample: for the user id bytes 01 02 03 04, the frame of a List
request starts with 04 03 02 01 — not with the raw id bytes unchanged as the
claim states. -/
theorem send_request_userid_cex :
    send_request (fun _ => none) [1, 2, 3, 4] 1 OpCode.LIST_FILES [] =
      .ok [4, 3, 2, 1, 1, 202] ∧
    ([4, 3, 2, 1, 1, 202] : List Nat).take 4 ≠ [1, 2, 3, 4] :=
  ⟨rfl, by decide⟩

/-- C2 witness: the amended reversed-user-id theorem applied to a concrete
List request. -/
theorem send_request_userid_witness :
    ∃ frame, send_request (fun _ => none) [1, 2, 3, 4] 1 OpCode.LIST_FILES [] =
      .ok frame ∧ frame.take 4 = [4, 3, 2, 1] :=
  send_request_userid (fun _ => none) 1 2 3 4 1 OpCode.LIST_FILES [] []
    (by omega) (by omega) (by omega) (by omega) (by omega) (by simp)
    (fun h => absurd h (by decide))

/-- C5 (amended): in every frame built by `send_request`, the presence of the
NameLen and Name fields is fully determined by whether the supplied filename
is empty — they are present if and only if the filename is nonempty — and
not by the opcode; the source decides with `if not filename:`.  (The callers
pass a filename exactly for the non-List opcodes, which restores the claimed
correspondence for the frames this client actually sends.) -/
theorem send_request_optional_fields (fs : List Char → Option (List Nat))
    (a b c d v : Nat) (op : OpCode) (name : List Char) (content : List Nat)
    (ha : a < 256) (hb : b < 256) (hc : c < 256) (hd : d < 256) (hv : v < 256)
    (hn : name.length < 65536)
    (hsave : op = OpCode.SAVE_FILE →
      fs name = some content ∧ content.length < 4294967296) :
    send_request fs [a, b, c, d] v op name =
      .ok ([d, c, b, a, v, op.value] ++
        (if name = [] then [] else toBytesLE 2 name.length ++ utf8Encode name) ++
        (if op = OpCode.SAVE_FILE then toBytesLE 4 content.length ++ content
         else [])) := by
  by_cases hopS : op = OpCode.SAVE_FILE
  · subst hopS
    obtain ⟨hfs, hcl⟩ := hsave rfl
    rw [send_request_spec_save fs a b c d v name content ha hb hc hd hv hn hfs hcl]
    cases name with
    | nil => simp
    | cons x xs => simp
  · rw [send_request_spec_nosave fs a b c d v op name ha hb hc hd hv hn hopS]
    cases name with
    | nil => simp [hopS]
    | cons x xs => simp [hopS]

/-- C5 counterexample: a Retrieve request built with an empty filename has no
NameLen and no Name field — the frame is the bare 6-byte header — although
the opcode is not ListFiles, so presence is not determined by the opcode. -/
theorem send_request_optional_fields_cex :
    send_request (fun _ => none) [0, 0, 0, 0] 1 OpCode.RETRIEVE_FILE [] =
      .ok [0, 0, 0, 0, 1, 200] ∧
    OpCode.RETRIEVE_FILE ≠ OpCode.LIST_FILES ∧
    ([0, 0, 0, 0, 1, 200] : List Nat).length = 6 :=
  ⟨rfl, by decide, rfl⟩

/-- C5 witness: the amended fields-iff-nonempty-filename theorem applied to a
concrete Delete request with filename "y". -/
theorem send_request_optional_fields_witness :
    send_request (fun _ => none) [1, 2, 3, 4] 1 OpCode.DELETE_FILE ['y'] =
      .ok ([4, 3, 2, 1, 1, OpCode.value OpCode.DELETE_FILE] ++
        (if (['y'] : List Char) = [] then []
         else toBytesLE 2 (['y'] : List Char).length ++ utf8Encode ['y']) ++
        (if OpCode.DELETE_FILE = OpCode.SAVE_FILE then
          toBytesLE 4 (List.length ([] : List Nat)) ++ [] else [])) :=
  send_request_optional_fields (fun _ => none) 1 2 3 4 1 OpCode.DELETE_FILE
    ['y'] [] (by omega) (by omega) (by omega) (by omega) (by omega) (by simp)
    (fun h => absurd h (by decide))

/-- C6 (confirmed): a Save request whose named local file is missing fails
with `FileNotFoundError` raised by `get_file_bytes` before the single
`client_socket.send(package)` call on line 80 is reached, so nothing at all
is transmitted (an `Except.error` result of `send_request` is produced
strictly before the send in the model). -/
theorem send_request_missing_file (fs : List Char → Option (List Nat))
    (a b c d v : Nat) (name : List Char)
    (ha : a < 256) (hb : b < 256) (hc : c < 256) (hd : d < 256) (hv : v < 256)
    (hn : name.length < 65536) (hfs : fs name = none) :
    send_request fs [a, b, c, d] v OpCode.SAVE_FILE name =
      .error PyError.fileNotFound := by
  have hbound : int_from_bytes_big [a, b, c, d] < 4294967296 := by
    rw [int_from_bytes_big_four a b c d]; omega
  have hv256 : (100 : Nat) < 256 := by omega
  by_cases hne : name.isEmpty
  · simp only [send_request, hne, if_true, pack_IBB,
      if_pos (And.intro hbound (And.intro hv hv256))]
    simp [hfs, OpCode.value, hbound, hv, hn]
  · simp only [send_request, hne, if_false, Bool.false_eq_true, pack_IBBH,
      if_pos (And.intro hbound (And.intro hv (And.intro hv256 hn)))]
    simp [hfs, OpCode.value, hbound, hv, hn]

/-- C6 witness: a concrete Save request on an empty filesystem errors with
FileNotFound. -/
theorem send_request_missing_file_witness :
    send_request (fun _ => none) [1, 2, 3, 4] 1 OpCode.SAVE_FILE ['f'] =
      .error PyError.fileNotFound :=
  send_request_missing_file (fun _ => none) 1 2 3 4 1 ['f']
    (by omega) (by omega) (by omega) (by omega) (by omega) (by simp) rfl

/-- C3 (amended): for every declared length L and every finite sequence of
stream bursts delivered by the peer, `receive_file` terminates and writes
fewer than L + 4096 bytes to the sink: the loop re-checks the remaining
counter before each read, but each `recv(4096)` may return up to 4096 bytes
regardless of how few bytes remain, so the final chunk can overshoot the
declared length by up to chunkSize − 1 bytes.  (The claimed bound of at
most L bytes holds only when no burst overruns the remaining counter.) -/
theorem receive_file_bounded (L : Nat) (hL : L < 4294967296)
    (rest : List (List Nat)) (filename : List Char) :
    ∃ written, receive_file (toBytesLE 4 L :: rest) filename =
        .ok (filename, written) ∧ written.length < L + 4096 := by
  have h4 : toBytesLE 4 L =
      [L % 256, L / 256 % 256, L / 65536 % 256, L / 16777216 % 256] :=
    toBytesLE_four L
  refine ⟨receive_file_loop ((L : Int)) rest, ?_, ?_⟩
  · rw [receive_file]
    simp only [h4, recv]
    norm_num
    have hdec : ((L : Int) % 256 + 256 * ((L : Int) / 256 % 256 + 256 *
        ((L : Int) / 65536 % 256 + 256 * ((L : Int) / 16777216 % 256)))) =
        (L : Int) := by
      omega
    rw [hdec]
  · have hb := receive_file_loop_length_le (sumLen rest) rest rfl (L : Int)
    by_cases h0 : (L : Int) ≤ 0
    · rw [if_pos h0] at hb
      omega
    · rw [if_neg h0] at hb
      omega

/-- C3 counterexample: declared length 1, one delivered burst of 2 bytes:
the single `recv(4096)` returns both bytes and the loop writes 2 bytes to
the sink — more than the declared length 1 — refuting "at most L bytes". -/
theorem receive_file_bounded_cex :
    receive_file [[1, 0, 0, 0], [0, 0]] ['f'] = .ok (['f'], [0, 0]) ∧
    ¬ (([0, 0] : List Nat).length ≤ 1) := by
  constructor
  · simp [receive_file, recv, receive_file_loop]
  · decide

/-- C3 witness: the amended bound theorem applied to declared length 1 and a
single 2-byte burst. -/
theorem receive_file_bounded_witness :
    ∃ written, receive_file (toBytesLE 4 1 :: [[0, 0]]) ['f'] =
        .ok (['f'], written) ∧ written.length < 1 + 4096 :=
  receive_file_bounded 1 (by omega) [[0, 0]] ['f']

/-- C4 (confirmed): if the stream ends before the declared length L is
reached — every burst is delivered and then `recv` returns the empty byte
string — `receive_file` returns normally with the sink holding exactly the
bytes received so far, fewer than L, raising no error and never comparing
the received count against L. -/
theorem receive_file_truncation_silent (L : Nat) (hL : L < 4294967296)
    (segs : List (List Nat)) (filename : List Char)
    (hne : ∀ s ∈ segs, s ≠ []) (hlen : sumLen segs < L) :
    receive_file (toBytesLE 4 L :: segs) filename =
        .ok (filename, segs.flatten) ∧ segs.flatten.length < L := by
  have h4 : toBytesLE 4 L =
      [L % 256, L / 256 % 256, L / 65536 % 256, L / 16777216 % 256] :=
    toBytesLE_four L
  have hfl : segs.flatten.length = sumLen segs := by
    simp [sumLen, List.length_flatten]
  constructor
  · rw [receive_file]
    simp only [h4, recv]
    norm_num
    have hdec : ((L : Int) % 256 + 256 * ((L : Int) / 256 % 256 + 256 *
        ((L : Int) / 65536 % 256 + 256 * ((L : Int) / 16777216 % 256)))) =
        (L : Int) := by
      omega
    rw [hdec]
    exact receive_file_loop_flatten (sumLen segs) segs rfl hne (L : Int)
      (by omega)
  · omega

/-- C4 witness: declared length 3, a single 1-byte burst, stream ends: the
sink holds exactly that byte and no error is raised. -/
theorem receive_file_truncation_silent_witness :
    receive_file (toBytesLE 4 3 :: [[7]]) ['t'] = .ok (['t'], [7]) ∧
      (([7] : List Nat) : List Nat).length < 3 := by
  have h := receive_file_truncation_silent 3 (by omega) [[7]] ['t']
    (by simp) (by simp [sumLen])
  simpa using h

/-- C7 (confirmed): if after a Save request the stream delivers the 3-byte
status header carrying status SUCCESS (212) and then closes, the parse fails
with `struct.error` — `receive_filename`'s `struct.unpack("<H", ...)`
receives 0 of the 2 bytes it demands — rather than returning any garbage or
empty filename as a success. -/
theorem request_file_save_response_truncated (v : Nat) :
    request_file_save_response [[v, 212, 0]] = .error PyError.structError := rfl

/-- C8 (confirmed): whatever the outcomes of the connect step and of the
operation body — success or any raised `PyError` — the orchestrator
`request` propagates no exception to its caller and closes the socket on
every exit path (the `with` block closes it whether the `try` body returned
or raised, and `except Exception` swallows the exception after logging). -/
theorem request_no_propagation_closes
    (connect_result op_result : Except PyError Unit) :
    (request connect_result op_result).propagated = none ∧
    (request connect_result op_result).socket_closed = true := by
  cases connect_result <;> cases op_result <;> exact ⟨rfl, rfl⟩

theorem receive_file_fst (segs : List (List Nat)) (filename : List Char)
    (r : List Char × List Nat) (h : receive_file segs filename = .ok r) :
    r.1 = filename := by
  unfold receive_file at h
  split at h
  · rw [Except.ok.injEq] at h
    rw [← h]
  · exact absurd h (by simp)

/-- C9 (amended): every Retrieve answered with FileRetrieved persists the
payload under the one fixed local staging name "tmp" (line 147), whatever
remote filename was announced; but "fixed" does not imply "distinct from the
remote filename" — when the remote filename is itself "tmp" the sink name
coincides with it, so the content is then written to a local file named
after the remote filename. -/
theorem retrieve_sink_fixed_name (segs : List (List Nat))
    (server_name : List Char) (sink : List Char × List Nat)
    (h : request_file_retrieve_response segs =
      .ok (RetrieveOutcome.retrieved server_name sink)) :
    sink.1 = ['t', 'm', 'p'] := by
  rcases hs : receive_status segs with e | ⟨status, segs1⟩
  · simp [request_file_retrieve_response, hs] at h
  · simp only [request_file_retrieve_response, hs] at h
    by_cases h210 : status = ResponseStatus.FILE_RETRIEVED.value
    · simp only [if_pos h210] at h
      rcases hf : receive_filename segs1 with e2 | ⟨sname, segs2⟩
      · simp [hf] at h
      · simp only [hf] at h
        rcases hrf : receive_file segs2 ['t', 'm', 'p'] with e3 | r
        · simp [hrf] at h
        · simp only [hrf, Except.ok.injEq, RetrieveOutcome.retrieved.injEq] at h
          obtain ⟨h1, h2⟩ := h
          rw [← h2]
          exact receive_file_fst segs2 ['t', 'm', 'p'] r hrf
    · simp only [if_neg h210] at h
      by_cases h1001 : status = ResponseStatus.NO_FILE.value
      · simp [if_pos h1001] at h
      · simp [if_neg h1001] at h

/-- C9 counterexample: the server announces the remote filename "tmp"; the
client then writes the payload to its staging file "tmp" — the sink name
equals the remote filename, refuting "distinct from the remote filename". -/
theorem retrieve_sink_fixed_name_cex :
    request_file_retrieve_response
        [[1, 210, 0], [3, 0], [116, 109, 112], [0, 0, 0, 0]] =
      .ok (RetrieveOutcome.retrieved
        [Char.ofNat 116, Char.ofNat 109, Char.ofNat 112]
        (['t', 'm', 'p'], [])) ∧
    ([Char.ofNat 116, Char.ofNat 109, Char.ofNat 112] : List Char) =
      ['t', 'm', 'p'] := by
  have h0 : receive_file_loop (0 : Int) [] = [] := by
    rw [receive_file_loop]
    simp
  refine ⟨?_, rfl⟩
  have h1 : request_file_retrieve_response
      [[1, 210, 0], [3, 0], [116, 109, 112], [0, 0, 0, 0]] =
      .ok (RetrieveOutcome.retrieved
        [Char.ofNat 116, Char.ofNat 109, Char.ofNat 112]
        (['t', 'm', 'p'], receive_file_loop (0 : Int) [])) := rfl
  rw [h1, h0]

/-- C9 witness: the fixed-staging-name theorem applied to a concrete
retrieve of remote file "a" with an empty payload. -/
theorem retrieve_sink_fixed_name_witness :
    ((['t', 'm', 'p'], ([] : List Nat)) : List Char × List Nat).1 =
      ['t', 'm', 'p'] :=
  retrieve_sink_fixed_name [[1, 210, 0], [1, 0], [97], [0, 0, 0, 0]]
    [Char.ofNat 97] (['t', 'm', 'p'], [])
    (by
      have h0 : receive_file_loop (0 : Int) [] = [] := by
        rw [receive_file_loop]
        simp
      have h1 : request_file_retrieve_response
          [[1, 210, 0], [1, 0], [97], [0, 0, 0, 0]] =
          .ok (RetrieveOutcome.retrieved [Char.ofNat 97]
            (['t', 'm', 'p'], receive_file_loop (0 : Int) [])) := rfl
      rw [h1, h0])

/-- C10 (confirmed, implicit claim): `receive_filename` issues exactly one
read of up to NameLen bytes and does not loop; when the 4-byte name "abcd"
is delivered in two 2-byte bursts, the single `recv(4)` returns only the
first burst and `receive_filename` returns the strict prefix "ab" as if it
were the complete filename, reporting no error and leaving the second burst
unread in the stream. -/
theorem receive_filename_short_read :
    receive_filename [[4, 0], [97, 98], [99, 100]] =
      .ok (['a', 'b'], [[99, 100]]) ∧
    ['a', 'b'] ++ ['c', 'd'] = ['a', 'b', 'c', 'd'] ∧
    (['a', 'b'] : List Char) ≠ ['a', 'b', 'c', 'd'] :=
  ⟨rfl, rfl, by decide⟩
